import Mathlib

/-!
Verification development for the SINTA live parser (`src/app.py`).

The Python source is shallowly embedded: every definition below is a direct
translation of a function of `app.py` (names follow the source, camel-cased).
Strings are modelled by Lean `String` (a wrapper around `List Char`), regular
expression searches by explicit left-to-right scanners over `List Char` with
the exact character classes of the source patterns (`\s`, `\w` and `str.lower`
are modelled at ASCII level, which covers every character class decision the
source patterns make on the claims' inputs), pandas data frames by
`List Record`, and the md5 page fingerprint by the page body itself (the
digest is used for equality only; md5 collisions are not modelled).
-/

/-- Python regex `\s` / `str.strip` whitespace (ASCII range). -/
def pyWs (c : Char) : Bool :=
  c = ' ' || c = '\t' || c = '\n' || c = '\r' || c = '\x0b' || c = '\x0c'

/-- Python `str.strip()` on a character list: drop whitespace at both ends. -/
def trimWs (cs : List Char) : List Char :=
  ((cs.dropWhile pyWs).reverse.dropWhile pyWs).reverse

/-- One step of `re.sub(r"\s+", " ", _)`: every maximal whitespace run becomes
a single space. -/
def collapseWs : List Char → List Char
  | [] => []
  | [c] => if pyWs c then [' '] else [c]
  | c :: d :: t =>
    if pyWs c then
      (if pyWs d then collapseWs (d :: t) else ' ' :: collapseWs (d :: t))
    else c :: collapseWs (d :: t)

/-- `clean_text` of app.py line 16: collapse whitespace runs, then strip. -/
def cleanText (s : String) : String := String.mk (trimWs (collapseWs s.data))

/-- Python `str.lower()` restricted to ASCII letters (the only case mapping
the source's comparisons exercise). -/
def lowerChar (c : Char) : Char :=
  match c with
  | 'A' => 'a' | 'B' => 'b' | 'C' => 'c' | 'D' => 'd' | 'E' => 'e' | 'F' => 'f'
  | 'G' => 'g' | 'H' => 'h' | 'I' => 'i' | 'J' => 'j' | 'K' => 'k' | 'L' => 'l'
  | 'M' => 'm' | 'N' => 'n' | 'O' => 'o' | 'P' => 'p' | 'Q' => 'q' | 'R' => 'r'
  | 'S' => 's' | 'T' => 't' | 'U' => 'u' | 'V' => 'v' | 'W' => 'w' | 'X' => 'x'
  | 'Y' => 'y' | 'Z' => 'z'
  | c => c

/-- Python `str.lower()` on a string. -/
def lowerStr (s : String) : String := String.mk (s.data.map lowerChar)

/-- Python `c in s` for a single character. -/
def strContainsChar (s : String) (c : Char) : Bool :=
  s.data.any (fun d => decide (d = c))

/-- Regex `\w` (ASCII): letters, digits, underscore. -/
def isWordChar (c : Char) : Bool := c.isAlpha || c.isDigit || c = '_'

/-- Word boundary `\b` against the character preceding the match position
(`none` at the start of the text / `none` following the match end). -/
def boundaryOk : Option Char → Bool
  | none => true
  | some p => !isWordChar p

/-- Consume a literal case-insensitively (the literal is given lowercase);
returns the remaining input on success. Models a literal inside an `re.I`
pattern. -/
def matchCILit : List Char → List Char → Option (List Char)
  | [], rest => some rest
  | _ :: _, [] => none
  | l :: lt, c :: ct => if lowerChar c = l then matchCILit lt ct else none

/-- Consume a literal case-sensitively; returns the remaining input. -/
def matchCSLit : List Char → List Char → Option (List Char)
  | [], rest => some rest
  | _ :: _, [] => none
  | l :: lt, c :: ct => if c = l then matchCSLit lt ct else none

/-- `l₁` is a prefix of `l₂` (character lists). -/
def startsWithList : List Char → List Char → Bool
  | [], _ => true
  | _ :: _, [] => false
  | p :: ps, c :: cs => p = c && startsWithList ps cs

/-- `re.search` of a fixed literal (substring test, Python `in`). -/
def subListSearch (pat : List Char) : List Char → Bool
  | [] => startsWithList pat []
  | c :: t => startsWithList pat (c :: t) || subListSearch pat t

/-- Character class `[^\s<]` of the DOI pattern. -/
def doiTokChar (c : Char) : Bool := !pyWs c && !(c = '<')

/-- Try pattern `DOI\s*:\s*([^\s<]+)` (case-insensitive, `\b` checked by the
caller) at the current position; returns the captured token. -/
def doiAt (cs : List Char) : Option (List Char) :=
  match matchCILit ['d', 'o', 'i'] cs with
  | none => none
  | some r1 =>
    match r1.dropWhile pyWs with
    | ':' :: r3 =>
      if (r3.dropWhile pyWs).takeWhile doiTokChar = [] then none
      else some ((r3.dropWhile pyWs).takeWhile doiTokChar)
    | _ => none

/-- Leftmost search for `\bDOI\s*:\s*([^\s<]+)` (re.I); the first argument is
the character before the current position. -/
def doiSearch : Option Char → List Char → Option (List Char)
  | _, [] => none
  | prev, c :: rest =>
    match (if boundaryOk prev then doiAt (c :: rest) else none) with
    | some tok => some tok
    | none => doiSearch (some c) rest

/-- The placeholder test of `extract_doi` (app.py line 22). -/
def isDoiPlaceholder (doi : String) : Bool :=
  doi = "-" || doi = "—" || lowerStr doi = "n/a" || lowerStr doi = "na"

/-- `extract_doi` of app.py lines 19-24. -/
def extractDoi (text : String) : String :=
  match doiSearch none text.data with
  | none => ""
  | some tok =>
    let doi := String.mk (trimWs tok)
    if isDoiPlaceholder doi then "" else doi

/-- Try `(19\d{2}|20\d{2})\b` at the current position (leading `\b` checked by
the caller); returns the four-character token. -/
def yearAt : List Char → Option (List Char)
  | a :: b :: c :: d :: rest =>
    if ((a = '1' && b = '9') || (a = '2' && b = '0')) && c.isDigit && d.isDigit
        && boundaryOk rest.head? then
      some [a, b, c, d]
    else none
  | _ => none

/-- Leftmost search for `\b(19\d{2}|20\d{2})\b`. -/
def yearSearch : Option Char → List Char → Option (List Char)
  | _, [] => none
  | prev, c :: rest =>
    match (if boundaryOk prev then yearAt (c :: rest) else none) with
    | some tok => some tok
    | none => yearSearch (some c) rest

/-- `extract_year` of app.py lines 26-28. -/
def extractYear (text : String) : String :=
  match yearSearch none text.data with
  | some tok => String.mk tok
  | none => ""

/-- Try `Accred\s*:\s*Sinta\s*(\d)` (re.I, no `\b`) at the current position;
returns the captured digit. -/
def sintaAt (cs : List Char) : Option Char :=
  match matchCILit ['a', 'c', 'c', 'r', 'e', 'd'] cs with
  | none => none
  | some r1 =>
    match r1.dropWhile pyWs with
    | ':' :: r3 =>
      match matchCILit ['s', 'i', 'n', 't', 'a'] (r3.dropWhile pyWs) with
      | none => none
      | some r5 =>
        match r5.dropWhile pyWs with
        | d :: _ => if d.isDigit then some d else none
        | [] => none
    | _ => none

/-- Leftmost search for the Accred/Sinta pattern. -/
def sintaSearch : List Char → Option Char
  | [] => none
  | c :: rest =>
    match sintaAt (c :: rest) with
    | some d => some d
    | none => sintaSearch rest

/-- `extract_sinta` of app.py lines 30-32. -/
def extractSinta (text : String) : String :=
  match sintaSearch text.data with
  | some d => String.mk [d]
  | none => ""

/-- Try `Author Order\s*:\s*\d+\s*of\s*\d+\s*` (re.I) at the current
position; returns the remaining input after the whole match. -/
def aoAt (cs : List Char) : Option (List Char) :=
  match matchCILit ['a', 'u', 't', 'h', 'o', 'r', ' ', 'o', 'r', 'd', 'e', 'r'] cs with
  | none => none
  | some r1 =>
    match r1.dropWhile pyWs with
    | ':' :: r3 =>
      let r4 := r3.dropWhile pyWs
      if (r4.takeWhile Char.isDigit) = [] then none
      else
        let r5 := (r4.dropWhile Char.isDigit).dropWhile pyWs
        match matchCILit ['o', 'f'] r5 with
        | none => none
        | some r6 =>
          let r7 := r6.dropWhile pyWs
          if (r7.takeWhile Char.isDigit) = [] then none
          else some (((r7.dropWhile Char.isDigit).dropWhile pyWs))
    | _ => none

/-- Global `re.sub` of the Author-Order pattern with the empty replacement.
The fuel argument bounds the number of scan steps; every step consumes at
least one character, so `cs.length` steps always suffice. -/
def subAOFuel : Nat → List Char → List Char
  | 0, cs => cs
  | _ + 1, [] => []
  | f + 1, c :: t =>
    match aoAt (c :: t) with
    | some rest => subAOFuel f rest
    | none => c :: subAOFuel f t

/-- `re.sub(r"Author Order\s*:\s*\d+\s*of\s*\d+\s*", "", t, flags=re.I)`. -/
def subAO (cs : List Char) : List Char := subAOFuel cs.length cs

/-- Leftmost match position of `\b(19\d{2}|20\d{2})\b` (used as a cut
marker); the `Nat` argument is the index of the current position. -/
def yearSearchPos : Option Char → List Char → Nat → Option Nat
  | _, [], _ => none
  | prev, c :: rest, i =>
    if boundaryOk prev && (yearAt (c :: rest)).isSome then some i
    else yearSearchPos (some c) rest (i + 1)

/-- Does `LIT\s*:` (re.I) match at the current position? Used for the
`\bDOI\s*:` and `\bAccred\s*:` cut markers. -/
def labelAt (lit : List Char) (cs : List Char) : Bool :=
  match matchCILit lit cs with
  | none => false
  | some r1 =>
    match r1.dropWhile pyWs with
    | ':' :: _ => true
    | _ => false

/-- Leftmost match position of `\bLIT\s*:` (re.I). -/
def labelSearchPos (lit : List Char) : Option Char → List Char → Nat → Option Nat
  | _, [], _ => none
  | prev, c :: rest, i =>
    if boundaryOk prev && labelAt lit (c :: rest) then some i
    else labelSearchPos lit (some c) rest (i + 1)

/-- `cut_pos` of `extract_authors_from_meta` (app.py lines 38-43): the
earliest of the year / DOI / Accred markers, defaulting to the text length. -/
def cutPos (cs : List Char) : Nat :=
  min (min ((yearSearchPos none cs 0).getD cs.length)
           ((labelSearchPos ['d', 'o', 'i'] none cs 0).getD cs.length))
      ((labelSearchPos ['a', 'c', 'c', 'r', 'e', 'd'] none cs 0).getD cs.length)

/-- The separator set of `.strip(" -–—|")` (app.py line 45). -/
def sepStripChar (c : Char) : Bool :=
  c = ' ' || c = '-' || c = '–' || c = '—' || c = '|'

/-- Python `str.strip(" -–—|")`. -/
def stripSeps (cs : List Char) : List Char :=
  ((cs.dropWhile sepStripChar).reverse.dropWhile sepStripChar).reverse

/-- The `authors` candidate of `extract_authors_from_meta` just before the
sanity check (app.py lines 35-45). -/
def authorsCandidate (meta : String) : String :=
  let t := trimWs (subAO (cleanText meta).data)
  cleanText (String.mk (stripSeps (List.take (cutPos t) t)))

/-- The character class `[A-Za-zÀ-ÖØ-öø-ÿ'’.\- ]` of the shape regex. -/
def shapeChar (c : Char) : Bool :=
  ('A' ≤ c && c ≤ 'Z') || ('a' ≤ c && c ≤ 'z') ||
  ('À' ≤ c && c ≤ 'Ö') || ('Ø' ≤ c && c ≤ 'ö') || ('ø' ≤ c && c ≤ 'ÿ') ||
  c = Char.ofNat 39 || c = '’' || c = '.' || c = '-' || c = ' '

/-- The part `\s*[class]+$` of the shape regex after the comma: some prefix
of whitespace, then a non-empty run of class characters reaching the end. -/
def shapeTail : List Char → Bool
  | [] => false
  | c :: t => (c :: t).all shapeChar || (pyWs c && shapeTail t)

/-- `re.match(r"^[class]+,\s*[class]+$", s)` as a Bool. Since the class does
not contain a comma, the first `+` run is exactly the maximal class run, which
must be non-empty and followed by the literal comma. -/
def shapeMatch (s : String) : Bool :=
  match s.data.dropWhile shapeChar with
  | ',' :: rest => !(s.data.takeWhile shapeChar).isEmpty && shapeTail rest
  | _ => false

/-- `extract_authors_from_meta` of app.py lines 34-53. -/
def extractAuthorsFromMeta (meta : String) : String :=
  let authors := authorsCandidate meta
  if authors = "" then ""
  else if !strContainsChar authors ';' && !strContainsChar authors ',' then
    (if shapeMatch authors then authors else "")
  else authors

/-!
HTML model. A BeautifulSoup tree is modelled in first-child / next-sibling
form, so that every traversal is structurally recursive: `Html.nil` ends a
sibling chain, `Html.text` is a navigable string followed by its siblings,
and `Html.elem` carries tag, class list, optional `href` attribute, child
forest and siblings. Document order = preorder = the order produced below.
-/
inductive Html where
  | nil : Html
  | text (s : String) (next : Html) : Html
  | elem (tag : String) (classes : List String) (href : Option String)
      (children : Html) (next : Html) : Html
deriving DecidableEq

/-- All text-node strings of a forest, in document order. -/
def Html.texts : Html → List String
  | .nil => []
  | .text s nx => s :: nx.texts
  | .elem _ _ _ ch nx => ch.texts ++ nx.texts

/-- `str.strip()` on a string. -/
def pyStrip (s : String) : String := String.mk (trimWs s.data)

/-- BeautifulSoup `tag.get_text(sep, strip=True)`: each descendant string is
stripped, empties are dropped, and the rest joined with the separator. -/
def nodeText (sep : String) (h : Html) : String :=
  match h with
  | .elem _ _ _ ch _ =>
    String.intercalate sep (((ch.texts).map pyStrip).filter (fun s => decide (s ≠ "")))
  | .text s _ => pyStrip s
  | .nil => ""

/-- All element nodes of a forest in document order, each detached from its
siblings (so that `nodeText` of a result covers exactly its own subtree). -/
def elemsOf : Html → List Html
  | .nil => []
  | .text _ nx => elemsOf nx
  | .elem t c hr ch nx => .elem t c hr ch .nil :: (elemsOf ch ++ elemsOf nx)

/-- The element descendants of a node (BeautifulSoup `find`/`find_all` search
the descendants of the tag they are called on). -/
def childElems (item : Html) : List Html :=
  match item with
  | .elem _ _ _ ch _ => elemsOf ch
  | _ => []

def tagOf : Html → String
  | .elem t _ _ _ _ => t
  | _ => ""

def classesOf : Html → List String
  | .elem _ c _ _ _ => c
  | _ => []

def hrefOf : Html → Option String
  | .elem _ _ h _ _ => h
  | _ => none

/-- `\bWORD\b` search, case-sensitive: match at the current position with a
word boundary on each side. -/
def wordAt (w : List Char) (prev : Option Char) (cs : List Char) : Bool :=
  boundaryOk prev &&
    (match matchCSLit w cs with
     | some r => boundaryOk r.head?
     | none => false)

def wordSearchAux (w : List Char) : Option Char → List Char → Bool
  | prev, [] => wordAt w prev []
  | prev, c :: rest => wordAt w prev (c :: rest) || wordSearchAux w (some c) rest

/-- `re.search(r"\bWORD\b", s)` (case-sensitive). -/
def wordSearch (w : String) (s : String) : Bool := wordSearchAux w.data none s.data

/-- `\bWORD\b` search, case-insensitive (`w` given lowercase). -/
def wordCIAt (w : List Char) (prev : Option Char) (cs : List Char) : Bool :=
  boundaryOk prev &&
    (match matchCILit w cs with
     | some r => boundaryOk r.head?
     | none => false)

def wordSearchCIAux (w : List Char) : Option Char → List Char → Bool
  | prev, [] => wordCIAt w prev []
  | prev, c :: rest => wordCIAt w prev (c :: rest) || wordSearchCIAux w (some c) rest

/-- `re.search(r"\bWORD\b", s, re.I)`. -/
def wordSearchCI (w : String) (s : String) : Bool :=
  wordSearchCIAux (lowerStr w).data none s.data

/-- BeautifulSoup `class_=re.compile(r"\bW\b")`: the regex is matched against
each individual class value. -/
def hasClassWord (w : String) (n : Html) : Bool :=
  (classesOf n).any (fun cl => wordSearch w cl)

/-- `item.find("a", href=re.compile(r"documents/detail/", re.I))`'s predicate. -/
def isDetailLink (n : Html) : Bool :=
  tagOf n = "a" &&
    (match hrefOf n with
     | some u => subListSearch "documents/detail/".data (lowerStr u).data
     | none => false)

/-- The first detail-page link of an item (primary Title rule). -/
def detailLinkOf (item : Html) : Option Html :=
  List.find? isDetailLink (childElems item)

/-- The noise test shared by the Title and Authors fallbacks: substring
checks on the lowercased text plus `\bvol\b|\bno\b|\bvolume\b`. -/
def noiseText (low : String) : Bool :=
  subListSearch "author order".data low.data ||
  subListSearch "accred".data low.data ||
  subListSearch "doi:".data low.data ||
  (wordSearch "vol" low || wordSearch "no" low || wordSearch "volume" low)

/-- The Title fallback loop over `item.find_all("a", href=True)`
(app.py lines 60-69). -/
def titleFallbackGo : List Html → String
  | [] => ""
  | n :: rest =>
    if tagOf n = "a" && (hrefOf n).isSome then
      let txt := cleanText (nodeText " " n)
      if txt = "" || txt.length < 8 then titleFallbackGo rest
      else if noiseText (lowerStr txt) then titleFallbackGo rest
      else txt
    else titleFallbackGo rest

def titleFallback (item : Html) : String := titleFallbackGo (childElems item)

/-- `title_from_item` of app.py lines 55-70. -/
def titleFromItem (item : Html) : String :=
  match detailLinkOf item with
  | some a => cleanText (nodeText " " a)
  | none => titleFallback item

/-- Python `str.split("\n")`. -/
def splitNl : List Char → List (List Char)
  | [] => [[]]
  | c :: t =>
    if c = '\n' then [] :: splitNl t
    else
      match splitNl t with
      | [] => [[c]]
      | l :: ls => (c :: l) :: ls

/-- The Journal fallback: first stripped non-empty line matching
`\bVol\b|\bNo\b|\bVolume\b` (case-sensitive), app.py lines 76-79. -/
def journalLineScan : List String → String
  | [] => ""
  | ln :: rest =>
    if ln = "" then journalLineScan rest
    else if wordSearch "Vol" ln || wordSearch "No" ln || wordSearch "Volume" ln then
      cleanText ln
    else journalLineScan rest

/-- `journal_from_item` of app.py lines 72-80. -/
def journalFromItem (item : Html) : String :=
  match List.find? (fun n => tagOf n = "a" && hasClassWord "ar-pub" n) (childElems item) with
  | some pub => cleanText (nodeText " " pub)
  | none =>
    journalLineScan
      (((splitNl (nodeText "\n" item).data).map (fun l => pyStrip (String.mk l))))

/-- The structurally marked year element (`item.find("a", class_=ar-year)`). -/
def yearElemOf (item : Html) : Option Html :=
  List.find? (fun n => tagOf n = "a" && hasClassWord "ar-year" n) (childElems item)

/-- `year_from_item` of app.py lines 82-86. -/
def yearFromItem (item : Html) : String :=
  match yearElemOf item with
  | some y => extractYear (nodeText " " y)
  | none => extractYear (nodeText " " item)

/-- `doi_from_item` of app.py lines 88-94. -/
def doiFromItem (item : Html) : String :=
  match List.find? (fun n => tagOf n = "a" && hasClassWord "ar-cited" n) (childElems item) with
  | some cited =>
    let d := extractDoi (nodeText " " cited)
    if d ≠ "" then d else extractDoi (nodeText " " item)
  | none => extractDoi (nodeText " " item)

/-- `sinta_from_item` of app.py lines 96-97. -/
def sintaFromItem (item : Html) : String := extractSinta (nodeText " " item)

/-- The Authors fallback loop over `item.find_all("a")`
(app.py lines 111-122). -/
def authorsFallbackGo : List Html → String
  | [] => ""
  | n :: rest =>
    if tagOf n = "a" then
      let txt := cleanText (nodeText " " n)
      if txt = "" then authorsFallbackGo rest
      else if noiseText (lowerStr txt) then authorsFallbackGo rest
      else if strContainsChar txt ';' then txt
      else authorsFallbackGo rest
    else authorsFallbackGo rest

def authorsFallback (item : Html) : String := authorsFallbackGo (childElems item)

/-- `authors_from_item` of app.py lines 99-122: the first `div.ar-meta`
whose text contains `\bAuthor Order\b` (re.I), else the link fallback. -/
def authorsFromItem (item : Html) : String :=
  match List.find?
      (fun n => tagOf n = "div" && hasClassWord "ar-meta" n &&
        wordSearchCI "Author Order" (nodeText " " n)) (childElems item) with
  | some meta =>
    let a := extractAuthorsFromMeta (nodeText " " meta)
    if a ≠ "" then a else authorsFallback item
  | none => authorsFallback item

/-- One row of the result table (the columns of app.py lines 139-147;
`sourceFile` is the page provenance label). -/
structure Record where
  title : String
  year : String
  authors : String
  journal : String
  sinta : String
  doi : String
  sourceFile : String
deriving DecidableEq

/-- `soup.select("div.ar-list-item")`'s predicate: tag `div` with the exact
class token. -/
def isListItem (n : Html) : Bool :=
  tagOf n = "div" && (classesOf n).any (fun c => decide (c = "ar-list-item"))

/-- The list items of a page, in document order. -/
def pageItems (page : Html) : List Html := (elemsOf page).filter isListItem

/-- `parse_one_page` of app.py lines 124-148, over the parsed page tree. -/
def parseOnePage (page : Html) (source : String) : List Record :=
  (pageItems page).filterMap (fun it =>
    let title := titleFromItem it
    let journal := journalFromItem it
    let year := yearFromItem it
    let authors := authorsFromItem it
    let doi := doiFromItem it
    let sinta := sintaFromItem it
    if title = "" ∧ doi = "" ∧ journal = "" then none
    else some ⟨title, year, authors, journal, sinta, doi, source⟩)

/-- The item of Scenario A of the spec, used as a concrete test vehicle. -/
def scenarioItem : Html :=
  .elem "div" ["ar-list-item"] none
    (.elem "a" [] (some "documents/detail/123")
      (.text "Deep Learning for X" .nil)
      (.elem "a" ["ar-pub"] none (.text "Journal of Y, Vol 3 No 1" .nil)
        (.elem "a" ["ar-year"] none (.text "2021" .nil)
          (.elem "div" ["ar-meta"] none
            (.text "Author Order: 1 of 2 Smith, J.; Doe, A. 2021 DOI: 10.1/abc Accred: Sinta 2" .nil)
            .nil))))
    .nil

/-- The column cleaning of `smart_dedup` (app.py lines 156-157): `clean_text`
over title, year, authors, journal and doi (`Sinta` and `SourceFile` are not
cleaned). -/
def cleanFields (r : Record) : Record :=
  { r with
    title := cleanText r.title
    year := cleanText r.year
    authors := cleanText r.authors
    journal := cleanText r.journal
    doi := cleanText r.doi }

/-- `make_key` of app.py lines 159-167: the dedup key as the string the code
actually builds. -/
def makeKey (r : Record) : String :=
  if r.doi ≠ "" then "DOI|" ++ lowerStr r.doi
  else
    "META|" ++ lowerStr r.title ++ "|" ++ lowerStr r.year ++ "|" ++
      lowerStr r.journal ++ "|" ++ lowerStr r.authors

/-- `drop_duplicates(keep="first")` over a key function: keep a row iff its
key was not produced by an earlier row. -/
def keepFirstAux {κ : Type} [DecidableEq κ] (f : Record → κ) :
    List κ → List Record → List Record
  | _, [] => []
  | seen, r :: rest =>
    if f r ∈ seen then keepFirstAux f seen rest
    else r :: keepFirstAux f (f r :: seen) rest

/-- `smart_dedup` of app.py lines 150-171. -/
def smartDedup (rs : List Record) : List Record :=
  keepFirstAux makeKey [] (rs.map cleanFields)

/-- The DedupKey of the spec (§4.3): a tagged pair for DOI-bearing records,
a tagged tuple of (lowercased title, year, lowercased journal, lowercased
authors) otherwise. -/
inductive DedupKey where
  | doiKey (value : String)
  | metaKey (title year journal authors : String)
deriving DecidableEq

/-- The key assignment exactly as the spec words it (year not lowercased). -/
def dedupKeySpec (r : Record) : DedupKey :=
  if r.doi ≠ "" then .doiKey (lowerStr r.doi)
  else .metaKey (lowerStr r.title) r.year (lowerStr r.journal) (lowerStr r.authors)

/-- The stop events the crawl loop reports (app.py lines 283-306): the three
`break`s that write an explicit message. The loop running through all
`max_pages_cap` iterations executes none of them. -/
inductive StopEvent where
  | duplicate (page : Nat)
  | emptyStreak (page : Nat)
  | requestFailed (page : Nat)
deriving DecidableEq

/-- The observable outcome of a crawl run: accumulated per-page tables
(`all_parts`), the set of seen page fingerprints (as the list of page bodies;
the md5 digest is modelled by the body itself, being used for equality only),
and the stop event, if any branch with an explicit stop message ran. -/
structure CrawlResult where
  parts : List (List Record)
  seen : List String
  stop : Option StopEvent
deriving DecidableEq

/-- The crawl loop of app.py lines 277-312. `fetch p` is the page body of
page `p`, or `none` on a transport error; `parse` abstracts
`parse_one_page`. The first argument counts the remaining iterations of
`for page in range(1, cap + 1)`. -/
def crawlLoop (fetch : Nat → Option String) (parse : String → List Record) :
    Nat → Nat → List String → List (List Record) → Nat → CrawlResult
  | 0, _, seen, parts, _ => ⟨parts, seen, none⟩
  | rem + 1, page, seen, parts, streak =>
    match fetch page with
    | none => ⟨parts, seen, some (.requestFailed page)⟩
    | some html =>
      if html ∈ seen then ⟨parts, seen, some (.duplicate page)⟩
      else
        let rows := parse html
        if rows.length = 0 then
          (if streak + 1 ≥ 2 then
            ⟨parts ++ [rows], seen ++ [html], some (.emptyStreak page)⟩
          else crawlLoop fetch parse rem (page + 1) (seen ++ [html]) (parts ++ [rows]) (streak + 1))
        else crawlLoop fetch parse rem (page + 1) (seen ++ [html]) (parts ++ [rows]) 0

/-- A crawl run: pages 1 to `cap`, starting from the empty state. -/
def crawlRun (cap : Nat) (fetch : Nat → Option String)
    (parse : String → List Record) : CrawlResult :=
  crawlLoop fetch parse cap 1 [] [] 0

/-- The fingerprints of the first `n` pages, in fetch order. -/
def pageSeen (html : Nat → String) (n : Nat) : List String :=
  (List.range n).map (fun i => html (i + 1))

/-- The per-page tables of the first `n` pages, in fetch order. -/
def pageParts (html : Nat → String) (parse : String → List Record) (n : Nat) :
    List (List Record) :=
  (List.range n).map (fun i => parse (html (i + 1)))

/-- The `empty_streak` counter after `n` cleanly processed pages: 1 iff the
last processed page yielded no rows (the counter never reaches 2 without
stopping). -/
def streakAt (html : Nat → String) (parse : String → List Record) (n : Nat) : Nat :=
  if 1 ≤ n ∧ parse (html n) = [] then 1 else 0

/-- A character that forces pandas' minimal quoting with `sep=";"`: the
separator, the quote char, or a line break. -/
def csvSpecial (c : Char) : Bool :=
  c = ';' || c = Char.ofNat 34 || c = '\n' || c = '\r'

/-- Double each quote character (CSV escaping inside a quoted field). -/
def dquoteDouble : List Char → List Char
  | [] => []
  | c :: t =>
    if c = Char.ofNat 34 then Char.ofNat 34 :: Char.ofNat 34 :: dquoteDouble t
    else c :: dquoteDouble t

/-- One field as `to_csv(sep=";")` renders it (QUOTE_MINIMAL). -/
def csvField (s : String) : String :=
  if s.data.any csvSpecial then "\"" ++ String.mk (dquoteDouble s.data) ++ "\""
  else s

/-- Join fields with the semicolon separator. -/
def joinSemi : List String → String
  | [] => ""
  | [s] => s
  | s :: t => s ++ ";" ++ joinSemi t

/-- One output line. -/
def csvLine (fields : List String) : String := joinSemi (fields.map csvField)

/-- Concatenation of all lines (each `to_csv` row ends with a newline). -/
def joinAll : List String → String
  | [] => ""
  | s :: t => s ++ joinAll t

/-- The column order forced at app.py line 324. -/
def headerCols : List String :=
  ["No", "Judul Artikel", "Tahun", "Authors", "Nama Jurnal", "Sinta", "DOI", "SourceFile"]

/-- One data row in that column order; `no` is the inserted `No` value. -/
def recordRow (no : Nat) (r : Record) : List String :=
  [toString no, r.title, r.year, r.authors, r.journal, r.sinta, r.doi, r.sourceFile]

/-- The final table of app.py lines 323-324: header, then one row per
record with `No` = 1-based position. -/
def finalRows (d : List Record) : List (List String) :=
  headerCols :: (List.enum d).map (fun p => recordRow (p.1 + 1) p.2)

/-- `to_csv_semicolon` of app.py lines 173-176 over a row table. -/
def toCsvSemicolon (rows : List (List String)) : String :=
  joinAll (rows.map (fun row => csvLine row ++ "\n"))

/-- The exported text of the final deduplicated table. -/
def exportFinal (d : List Record) : String := toCsvSemicolon (finalRows d)

/-!  Concrete inputs used by the claim witnesses and counterexamples. -/

/-- A record whose title contains the key separator `|`. -/
def c1X : Record := ⟨"x|", "", "", "", "", "", "p"⟩

/-- A record with a different spec key but the same string-encoded key. -/
def c1Y : Record := ⟨"x", "", "", "|", "", "", "p"⟩

/-- Three clean, separator-free records; the second repeats the first's DOI
up to case. -/
def c1Demo : List Record :=
  [⟨"Alpha", "2020", "Smith, J.", "JournalA", "1", "10.1/X", "p1"⟩,
   ⟨"Beta", "2021", "Doe, A.", "JournalB", "2", "10.1/x", "p2"⟩,
   ⟨"Alpha", "2020", "Smith, J.", "JournalA", "", "", "p2"⟩]

/-- The record Scenario A's item parses to. -/
def scenarioRec : Record :=
  ⟨"Deep Learning for X", "2021", "Smith, J.; Doe, A.",
   "Journal of Y, Vol 3 No 1", "2", "10.1/abc", "page_1"⟩

/-- An item whose `ar-year` element holds no 1900-2099 token while the item's
full text does. -/
def c5Item : Html :=
  .elem "div" ["ar-list-item"] none
    (.elem "a" ["ar-year"] none (.text "n.d." .nil)
      (.text "published 2021" .nil))
    .nil

/-- An item whose first detail-page link has empty visible text, while a
later link would pass every fallback filter. -/
def c10Item : Html :=
  .elem "div" ["ar-list-item"] none
    (.elem "a" [] (some "documents/detail/77") .nil
      (.elem "a" [] (some "other/page") (.text "A Perfectly Good Title" .nil) .nil))
    .nil

/-- The detail link of `c10Item` as `find` returns it (detached). -/
def c10Link : Html := .elem "a" [] (some "documents/detail/77") .nil .nil

/-- A non-empty parse result used by the crawl witnesses. -/
def wRec : Record := ⟨"T", "2020", "A", "J", "1", "10.1/x", "p"⟩

/-- Page bodies where page 3 repeats page 1. -/
def c3Html : Nat → String := fun p => if p = 3 then "pg1" else "pg" ++ toString p

/-- Every page parses to one row. -/
def wParseAll : String → List Record := fun _ => [wRec]

/-- Pairwise distinct page bodies. -/
def c4Html : Nat → String := fun p => "page" ++ toString p

/-- Pages 2, 4 and 5 are empty; the rest yield a row. -/
def c4Parse : String → List Record :=
  fun h => if h = "page2" ∨ h = "page4" ∨ h = "page5" then [] else [wRec]

/-- A fetch that fails on page 2. -/
def c8Fetch : Nat → Option String :=
  fun p => if p = 2 then none else some ("pg" ++ toString p)

/-- The page bodies `c8Fetch` serves where it succeeds. -/
def c8Html : Nat → String := fun p => "pg" ++ toString p

/-- Position `i` of `cs` starts a match of `\b(19\d{2}|20\d{2})\b`: four
characters `19xx`/`20xx`, a non-word character (or the text edge) on each
side; at position 0 the left boundary is judged against `prev`. This is the
spec-side description of "a 4-digit token in the range 1900-2099", stated
independently of the scanner. -/
def yearTokenAt (prev : Option Char) (cs : List Char) (i : Nat) : Prop :=
  (∃ a b c d, cs[i]? = some a ∧ cs[i + 1]? = some b ∧ cs[i + 2]? = some c ∧
    cs[i + 3]? = some d ∧ ((a = '1' ∧ b = '9') ∨ (a = '2' ∧ b = '0')) ∧
    c.isDigit = true ∧ d.isDigit = true) ∧
  (match i with
   | 0 => boundaryOk prev = true
   | j + 1 => ∃ p, cs[j]? = some p ∧ isWordChar p = false) ∧
  (cs[i + 4]? = none ∨ ∃ n, cs[i + 4]? = some n ∧ isWordChar n = false)


/-! Helper lemmas about `keepFirstAux` (pandas `drop_duplicates(keep="first")`). -/

theorem keepFirstAux_sublist {κ : Type} [DecidableEq κ] (f : Record → κ) :
    ∀ (seen : List κ) (l : List Record), (keepFirstAux f seen l).Sublist l := by
  intro seen l
  induction l generalizing seen with
  | nil => simp [keepFirstAux]
  | cons r t ih =>
    by_cases h : f r ∈ seen
    · simpa [keepFirstAux, h] using (ih seen).cons r
    · simpa [keepFirstAux, h] using (ih (f r :: seen)).cons₂ r

theorem keepFirstAux_not_seen {κ : Type} [DecidableEq κ] (f : Record → κ) :
    ∀ (seen : List κ) (l : List Record) (r : Record),
      r ∈ keepFirstAux f seen l → f r ∉ seen := by
  intro seen l
  induction l generalizing seen with
  | nil => simp [keepFirstAux]
  | cons a t ih =>
    intro r hr
    by_cases h : f a ∈ seen
    · simp only [keepFirstAux, if_pos h] at hr
      exact ih seen r hr
    · simp only [keepFirstAux, if_neg h, List.mem_cons] at hr
      rcases hr with rfl | hr
      · exact h
      · have := ih (f a :: seen) r hr
        intro hc
        exact this (List.mem_cons_of_mem _ hc)

theorem keepFirstAux_pairwise {κ : Type} [DecidableEq κ] (f : Record → κ) :
    ∀ (seen : List κ) (l : List Record),
      (keepFirstAux f seen l).Pairwise (fun a b => f a ≠ f b) := by
  intro seen l
  induction l generalizing seen with
  | nil => simp [keepFirstAux]
  | cons a t ih =>
    by_cases h : f a ∈ seen
    · simpa [keepFirstAux, h] using ih seen
    · simp only [keepFirstAux, if_neg h]
      refine List.Pairwise.cons ?_ (ih (f a :: seen))
      intro b hb heq
      exact keepFirstAux_not_seen f _ _ b hb (by simp [heq])

theorem keepFirstAux_find?_of_seen {κ : Type} [DecidableEq κ] (f : Record → κ) :
    ∀ (seen : List κ) (l : List Record) (k : κ), k ∈ seen →
      (keepFirstAux f seen l).find? (fun r => decide (f r = k)) = none := by
  intro seen l
  induction l generalizing seen with
  | nil => simp [keepFirstAux]
  | cons a t ih =>
    intro k hk
    by_cases h : f a ∈ seen
    · simp only [keepFirstAux, if_pos h]
      exact ih seen k hk
    · have hne : f a ≠ k := fun hc => h (hc ▸ hk)
      simp only [keepFirstAux, if_neg h, List.find?]
      rw [show (decide (f a = k)) = false by simp [hne]]
      exact ih (f a :: seen) k (List.mem_cons_of_mem _ hk)

theorem keepFirstAux_find? {κ : Type} [DecidableEq κ] (f : Record → κ) :
    ∀ (seen : List κ) (l : List Record) (k : κ), k ∉ seen →
      (keepFirstAux f seen l).find? (fun r => decide (f r = k))
        = l.find? (fun r => decide (f r = k)) := by
  intro seen l
  induction l generalizing seen with
  | nil => simp [keepFirstAux]
  | cons a t ih =>
    intro k hk
    by_cases h : f a ∈ seen
    · have hne : f a ≠ k := fun hc => hk (hc ▸ h)
      simp only [keepFirstAux, if_pos h, List.find?]
      rw [show (decide (f a = k)) = false by simp [hne]]
      exact ih seen k hk
    · by_cases hak : f a = k
      · simp only [keepFirstAux, if_neg h, List.find?]
        rw [show (decide (f a = k)) = true by simp [hak]]
      · simp only [keepFirstAux, if_neg h, List.find?]
        rw [show (decide (f a = k)) = false by simp [hak]]
        exact ih (f a :: seen) k (by
          intro hc
          rcases List.mem_cons.mp hc with hc | hc
          · exact hak hc.symm
          · exact hk hc)

theorem keepFirstAux_congr {κ₁ κ₂ : Type} [DecidableEq κ₁] [DecidableEq κ₂]
    (f : Record → κ₁) (g : Record → κ₂) :
    ∀ (pre l : List Record),
      (∀ a b : Record, (a ∈ pre ∨ a ∈ l) → (b ∈ pre ∨ b ∈ l) → (f a = f b ↔ g a = g b)) →
      keepFirstAux f (pre.map f) l = keepFirstAux g (pre.map g) l := by
  intro pre l
  induction l generalizing pre with
  | nil => intro _; simp [keepFirstAux]
  | cons a t ih =>
    intro hiff
    have hmem : f a ∈ pre.map f ↔ g a ∈ pre.map g := by
      simp only [List.mem_map]
      constructor
      · rintro ⟨x, hx, hfx⟩
        exact ⟨x, hx, (hiff x a (Or.inl hx) (Or.inr (by simp))).mp hfx⟩
      · rintro ⟨x, hx, hgx⟩
        exact ⟨x, hx, (hiff x a (Or.inl hx) (Or.inr (by simp))).mpr hgx⟩
    by_cases h : f a ∈ pre.map f
    · have h2 : g a ∈ pre.map g := hmem.mp h
      simp only [keepFirstAux, if_pos h, if_pos h2]
      exact ih pre (fun x y hx hy =>
        hiff x y (hx.imp id (List.mem_cons_of_mem a)) (hy.imp id (List.mem_cons_of_mem a)))
    · have h2 : g a ∉ pre.map g := fun hc => h (hmem.mpr hc)
      simp only [keepFirstAux, if_neg h, if_neg h2]
      have step := ih (a :: pre) (fun x y hx hy => by
        apply hiff x y
        · rcases hx with hx | hx
          · rcases List.mem_cons.mp hx with rfl | hx
            · exact Or.inr (by simp)
            · exact Or.inl hx
          · exact Or.inr (List.mem_cons_of_mem a hx)
        · rcases hy with hy | hy
          · rcases List.mem_cons.mp hy with rfl | hy
            · exact Or.inr (by simp)
            · exact Or.inl hy
          · exact Or.inr (List.mem_cons_of_mem a hy))
      simpa [List.map] using congrArg (a :: ·) step

/-! Helper lemmas about strings and the dedup keys. -/

theorem strdata_append (s t : String) : (s ++ t).data = s.data ++ t.data := by
  cases s; cases t; rfl

theorem lowerChar_eq_bar {c : Char} (h : lowerChar c = '|') : c = '|' := by
  unfold lowerChar at h
  split at h <;> simp_all

theorem lowerChar_of_digit {c : Char} (h : c.isDigit = true) : lowerChar c = c := by
  unfold lowerChar
  split <;> simp_all

theorem lowerStr_bar_free {s : String} (h : '|' ∉ s.data) : '|' ∉ (lowerStr s).data := by
  simp only [lowerStr, List.mem_map]
  rintro ⟨c, hc, hlc⟩
  exact h (lowerChar_eq_bar hlc ▸ hc)

theorem lowerStr_of_digits {s : String}
    (h : s = "" ∨ ∀ c ∈ s.data, c.isDigit = true) : lowerStr s = s := by
  rcases h with rfl | h
  · rfl
  · apply String.ext
    simp only [lowerStr]
    calc (s.data.map lowerChar) = s.data.map id :=
          List.map_congr_left (fun c hc => lowerChar_of_digit (h c hc))
      _ = s.data := List.map_id s.data

theorem year_bar_free {s : String}
    (h : s = "" ∨ ∀ c ∈ s.data, c.isDigit = true) : '|' ∉ s.data := by
  rcases h with rfl | h
  · simp [String.data]
  · intro hc
    have := h _ hc
    simp [Char.isDigit] at this

theorem bar_split : ∀ (x y u v : List Char), '|' ∉ x → '|' ∉ y →
    x ++ '|' :: u = y ++ '|' :: v → x = y ∧ u = v := by
  intro x
  induction x with
  | nil =>
    intro y u v _ hy h
    cases y with
    | nil => simpa using h
    | cons c y' =>
      simp only [List.nil_append, List.cons_append, List.cons.injEq] at h
      exact absurd (h.1 ▸ List.mem_cons_self c y') hy
  | cons a x' ih =>
    intro y u v hx hy h
    cases y with
    | nil =>
      simp only [List.cons_append, List.nil_append, List.cons.injEq] at h
      exact absurd (h.1 ▸ List.mem_cons_self a x') hx
    | cons c y' =>
      simp only [List.cons_append, List.cons.injEq] at h
      obtain ⟨rfl, h2⟩ := h
      have := ih y' u v (fun hc => hx (List.mem_cons_of_mem _ hc))
        (fun hc => hy (List.mem_cons_of_mem _ hc)) h2
      exact ⟨by rw [this.1], this.2⟩

theorem doiKey_ne_metaKey_str (x y : String) : ("DOI|" ++ x) ≠ ("META|" ++ y) := by
  intro h
  rw [String.ext_iff, strdata_append, strdata_append,
    show ("DOI|" : String).data = ['D', 'O', 'I', '|'] from rfl,
    show ("META|" : String).data = ['M', 'E', 'T', 'A', '|'] from rfl] at h
  simp at h

theorem makeKey_iff_spec (a b : Record)
    (hta : '|' ∉ a.title.data) (hja : '|' ∉ a.journal.data)
    (hya : a.year = "" ∨ ∀ c ∈ a.year.data, c.isDigit = true)
    (htb : '|' ∉ b.title.data) (hjb : '|' ∉ b.journal.data)
    (hyb : b.year = "" ∨ ∀ c ∈ b.year.data, c.isDigit = true) :
    (makeKey a = makeKey b ↔ dedupKeySpec a = dedupKeySpec b) := by
  unfold makeKey dedupKeySpec
  by_cases da : a.doi ≠ "" <;> by_cases db : b.doi ≠ ""
  · rw [if_pos da, if_pos db, if_pos da, if_pos db]
    simp only [DedupKey.doiKey.injEq]
    constructor
    · intro h
      exact String.ext (List.append_cancel_left
        (by simpa only [strdata_append] using String.ext_iff.mp h))
    · intro h; rw [h]
  · rw [if_pos da, if_neg db, if_pos da, if_neg db]
    constructor
    · intro h; exact absurd h (doiKey_ne_metaKey_str _ _)
    · intro h; simp at h
  · rw [if_neg da, if_pos db, if_neg da, if_pos db]
    constructor
    · intro h; exact absurd h.symm (doiKey_ne_metaKey_str _ _)
    · intro h; simp at h
  · rw [if_neg da, if_neg db, if_neg da, if_neg db]
    rw [lowerStr_of_digits hya, lowerStr_of_digits hyb]
    constructor
    · intro h
      rw [String.ext_iff] at h
      simp only [strdata_append,
        show ("META|" : String).data = ['M', 'E', 'T', 'A', '|'] from rfl,
        show ("|" : String).data = ['|'] from rfl,
        List.append_assoc, List.cons_append, List.nil_append,
        List.singleton_append, List.cons.injEq, true_and] at h
      obtain ⟨h1, h2⟩ := bar_split _ _ _ _ (lowerStr_bar_free hta) (lowerStr_bar_free htb) h
      obtain ⟨h3, h4⟩ := bar_split _ _ _ _ (year_bar_free hya) (year_bar_free hyb) h2
      obtain ⟨h5, h6⟩ := bar_split _ _ _ _ (lowerStr_bar_free hja) (lowerStr_bar_free hjb) h4
      simp only [DedupKey.metaKey.injEq]
      exact ⟨String.ext h1, String.ext h3, String.ext h5, String.ext h6⟩
    · intro h
      simp only [DedupKey.metaKey.injEq] at h
      obtain ⟨e1, e2, e3, e4⟩ := h
      rw [e1, e2, e3, e4]

/-! Helper lemmas about the crawl loop. -/

theorem pageSeen_succ (html : Nat → String) (n : Nat) :
    pageSeen html (n + 1) = pageSeen html n ++ [html (n + 1)] := by
  simp [pageSeen, List.range_succ]

theorem pageParts_succ (html : Nat → String) (parse : String → List Record) (n : Nat) :
    pageParts html parse (n + 1) = pageParts html parse n ++ [parse (html (n + 1))] := by
  simp [pageParts, List.range_succ]

/-- After `n` cleanly processed pages (all fetches succeed, no fingerprint
repeat, no two consecutive empty pages), the crawl run equals the loop
resumed at page `n + 1` with the accumulated state. -/
theorem crawl_reach (cap : Nat) (fetch : Nat → Option String) (html : Nat → String)
    (parse : String → List Record) :
    ∀ n : Nat, n ≤ cap →
      (∀ i, 1 ≤ i → i ≤ n → fetch i = some (html i)) →
      (∀ i k, 1 ≤ i → i < k → k ≤ n → html i ≠ html k) →
      (∀ i, 1 ≤ i → i + 1 ≤ n → ¬(parse (html i) = [] ∧ parse (html (i + 1)) = [])) →
      crawlRun cap fetch parse
        = crawlLoop fetch parse (cap - n) (n + 1) (pageSeen html n)
            (pageParts html parse n) (streakAt html parse n) := by
  intro n
  induction n with
  | zero =>
    intro _ _ _ _
    simp [crawlRun, pageSeen, pageParts, streakAt]
  | succ m ih =>
    intro hcap hok hdist hstreak
    rw [ih (Nat.le_of_succ_le hcap)
      (fun i h1 h2 => hok i h1 (Nat.le_succ_of_le h2))
      (fun i k h1 h2 h3 => hdist i k h1 h2 (Nat.le_succ_of_le h3))
      (fun i h1 h2 => hstreak i h1 (Nat.le_succ_of_le h2))]
    have hrem : cap - m = (cap - (m + 1)) + 1 := by omega
    rw [hrem]
    have hnotmem : html (m + 1) ∉ pageSeen html m := by
      simp only [pageSeen, List.mem_map, List.mem_range]
      rintro ⟨i, hi, heq⟩
      exact hdist (i + 1) (m + 1) (by omega) (by omega) (le_refl _) heq
    simp only [crawlLoop, hok (m + 1) (by omega) (le_refl _), if_neg hnotmem]
    by_cases hrow : parse (html (m + 1)) = []
    · have hs0 : streakAt html parse m = 0 := by
        unfold streakAt
        by_cases hm1 : 1 ≤ m
        · have hne : ¬ parse (html m) = [] := fun hc =>
            hstreak m hm1 (by omega) ⟨hc, hrow⟩
          rw [if_neg (fun hc => hne hc.2)]
        · rw [if_neg (fun hc => hm1 hc.1)]
      have hs1 : streakAt html parse (m + 1) = 1 := by
        unfold streakAt
        rw [if_pos ⟨by omega, hrow⟩]
      rw [hs0]
      rw [if_pos (by simp [hrow])]
      rw [if_neg (by omega)]
      rw [pageSeen_succ, pageParts_succ, hs1, hrow]
    · have hs0 : streakAt html parse (m + 1) = 0 := by
        unfold streakAt
        rw [if_neg (fun hc => hrow hc.2)]
      rw [if_neg (by simpa [List.length_eq_zero] using hrow)]
      rw [pageSeen_succ, pageParts_succ, hs0]

/-- Any `STOP_EMPTY_STREAK` outcome is produced by two consecutive pages that
were both fetched and both parsed to zero records. -/
theorem crawl_emptyStreak_sound (fetch : Nat → Option String) (parse : String → List Record) :
    ∀ (rem page : Nat) (seen : List String) (parts : List (List Record)) (streak : Nat),
      1 ≤ page → streak ≤ 1 →
      (streak = 1 → 2 ≤ page ∧ ∃ h, fetch (page - 1) = some h ∧ parse h = []) →
      ∀ q, (crawlLoop fetch parse rem page seen parts streak).stop = some (.emptyStreak q) →
        2 ≤ q ∧ ∃ h1 h2, fetch (q - 1) = some h1 ∧ parse h1 = [] ∧
          fetch q = some h2 ∧ parse h2 = [] := by
  intro rem
  induction rem with
  | zero =>
    intro page seen parts streak _ _ _ q h
    simp [crawlLoop] at h
  | succ m ih =>
    intro page seen parts streak hpage hstle hstinv q hstop
    simp only [crawlLoop] at hstop
    cases hfetch : fetch page with
    | none => simp [hfetch] at hstop
    | some html =>
      simp only [hfetch] at hstop
      by_cases hmem : html ∈ seen
      · rw [if_pos hmem] at hstop; simp at hstop
      · rw [if_neg hmem] at hstop
        by_cases hrows : (parse html).length = 0
        · have hempty : parse html = [] := List.length_eq_zero.mp hrows
          rw [if_pos hrows] at hstop
          by_cases hstk : streak + 1 ≥ 2
          · rw [if_pos hstk] at hstop
            have hq : page = q := by simpa using hstop
            have hs1 : streak = 1 := by omega
            obtain ⟨hp2, h1, hf1, hp1⟩ := hstinv hs1
            subst hq
            exact ⟨hp2, h1, html, hf1, hp1, hfetch, hempty⟩
          · rw [if_neg hstk] at hstop
            have hz : streak = 0 := by omega
            subst hz
            exact ih (page + 1) _ _ 1 (by omega) (by omega)
              (fun _ => ⟨by omega, html, by simpa using hfetch, hempty⟩) q hstop
        · rw [if_neg hrows] at hstop
          exact ih (page + 1) _ _ 0 (by omega) (by omega)
            (fun h => absurd h (by omega)) q hstop

/-- Any `requestFailed` outcome names a page whose fetch actually failed. -/
theorem crawl_requestFailed_sound (fetch : Nat → Option String) (parse : String → List Record) :
    ∀ (rem page : Nat) (seen : List String) (parts : List (List Record)) (streak : Nat) (q : Nat),
      (crawlLoop fetch parse rem page seen parts streak).stop = some (.requestFailed q) →
      fetch q = none := by
  intro rem
  induction rem with
  | zero =>
    intro page seen parts streak q h
    simp [crawlLoop] at h
  | succ m ih =>
    intro page seen parts streak q hstop
    simp only [crawlLoop] at hstop
    cases hfetch : fetch page with
    | none =>
      simp only [hfetch] at hstop
      have : page = q := by simpa using hstop
      exact this ▸ hfetch
    | some html =>
      simp only [hfetch] at hstop
      by_cases hmem : html ∈ seen
      · rw [if_pos hmem] at hstop; simp at hstop
      · rw [if_neg hmem] at hstop
        by_cases hrows : (parse html).length = 0
        · rw [if_pos hrows] at hstop
          by_cases hstk : streak + 1 ≥ 2
          · rw [if_pos hstk] at hstop; simp at hstop
          · rw [if_neg hstk] at hstop
            exact ih (page + 1) _ _ _ q hstop
        · rw [if_neg hrows] at hstop
          exact ih (page + 1) _ _ _ q hstop

/-! Helper lemmas about CSV rendering, the shape regex, and the DOI token. -/

theorem csvSpecial_digitChar (m : Nat) : csvSpecial (Nat.digitChar m) = false := by
  by_cases h : m < 16
  · interval_cases m <;> decide
  · have he : Nat.digitChar m = '*' := by
      unfold Nat.digitChar
      simp [show m ≠ 0 by omega, show m ≠ 1 by omega, show m ≠ 2 by omega,
        show m ≠ 3 by omega, show m ≠ 4 by omega, show m ≠ 5 by omega,
        show m ≠ 6 by omega, show m ≠ 7 by omega, show m ≠ 8 by omega,
        show m ≠ 9 by omega, show m ≠ 10 by omega, show m ≠ 11 by omega,
        show m ≠ 12 by omega, show m ≠ 13 by omega, show m ≠ 14 by omega,
        show m ≠ 15 by omega]
    rw [he]; decide

theorem toDigitsCore_special (b : Nat) :
    ∀ (fuel n : Nat) (acc : List Char), (∀ c ∈ acc, csvSpecial c = false) →
      ∀ c ∈ Nat.toDigitsCore b fuel n acc, csvSpecial c = false := by
  intro fuel
  induction fuel with
  | zero =>
    intro n acc hacc c hc
    rw [Nat.toDigitsCore] at hc
    exact hacc c hc
  | succ f ih =>
    intro n acc hacc c hc
    rw [Nat.toDigitsCore] at hc
    by_cases h : n / b = 0
    · simp only [h, if_pos] at hc
      rcases List.mem_cons.mp hc with rfl | hc
      · exact csvSpecial_digitChar _
      · exact hacc c hc
    · simp only [h, if_neg, if_false] at hc
      refine ih (n / b) _ ?_ c hc
      intro d hd
      rcases List.mem_cons.mp hd with rfl | hd
      · exact csvSpecial_digitChar _
      · exact hacc d hd

theorem csvField_natRepr (n : Nat) : csvField (toString n) = toString n := by
  have h : (toString n).data.any csvSpecial = false := by
    rw [List.any_eq_false]
    intro c hc
    simp only [Bool.not_eq_true]
    have e : (toString n).data = Nat.toDigitsCore 10 (n + 1) n [] := rfl
    rw [e] at hc
    exact toDigitsCore_special 10 (n + 1) n [] (by intro d hd; simp at hd) c hc
  simp [csvField, h]

theorem shapeMatch_comma {s : String} (h : shapeMatch s = true) :
    strContainsChar s ',' = true := by
  unfold shapeMatch at h
  split at h
  · rename_i rest heq
    have hs : s.data = s.data.takeWhile shapeChar ++ ',' :: rest := by
      conv_lhs => rw [← List.takeWhile_append_dropWhile shapeChar s.data]
      rw [heq]
    have hmem : ',' ∈ s.data := by
      rw [hs]; exact List.mem_append_right _ (List.mem_cons_self _ _)
    simp only [strContainsChar, List.any_eq_true]
    exact ⟨',', hmem, by simp⟩
  · exact absurd h (by simp)

theorem doiAt_token {cs tok : List Char} (h : doiAt cs = some tok) :
    tok ≠ [] ∧ ∀ c ∈ tok, doiTokChar c = true := by
  unfold doiAt at h
  split at h
  · exact absurd h (by simp)
  · split at h
    · rename_i r3 heq
      split at h
      · exact absurd h (by simp)
      · rename_i hne
        obtain rfl : (r3.dropWhile pyWs).takeWhile doiTokChar = tok := by
          simpa using h
        exact ⟨hne, fun c hc => List.mem_takeWhile_imp hc⟩
    · exact absurd h (by simp)

theorem doiSearch_token : ∀ (prev : Option Char) (cs tok : List Char),
    doiSearch prev cs = some tok → tok ≠ [] ∧ ∀ c ∈ tok, doiTokChar c = true := by
  intro prev cs
  induction cs generalizing prev with
  | nil => intro tok h; simp [doiSearch] at h
  | cons c rest ih =>
    intro tok h
    rw [doiSearch] at h
    by_cases hb : boundaryOk prev = true
    · rw [if_pos hb] at h
      cases hdo : doiAt (c :: rest) with
      | none => rw [hdo] at h; exact ih (some c) tok h
      | some t =>
        rw [hdo] at h
        obtain rfl : t = tok := by simpa using h
        exact doiAt_token hdo
    · rw [if_neg hb] at h
      exact ih (some c) tok h

/-! Helper lemmas relating the year scanner to the spec-side token predicate. -/

theorem yearTokenAt_zero_iff (prev : Option Char) (cs : List Char) :
    yearTokenAt prev cs 0 ↔ (boundaryOk prev = true ∧ (yearAt cs).isSome = true) := by
  match cs with
  | [] => simp [yearTokenAt, yearAt]
  | [a] => simp [yearTokenAt, yearAt]
  | [a, b] => simp [yearTokenAt, yearAt]
  | [a, b, c] => simp [yearTokenAt, yearAt]
  | a :: b :: c :: d :: rest =>
    unfold yearTokenAt yearAt
    simp only [List.getElem?_cons_zero, List.getElem?_cons_succ, Option.some.injEq]
    constructor
    · rintro ⟨⟨a', b', c', d', rfl, rfl, rfl, rfl, hcond, hcd, hdd⟩, hbound, hafter⟩
      refine ⟨hbound, ?_⟩
      have hb4 : boundaryOk rest.head? = true := by
        cases rest with
        | nil => rfl
        | cons n rest' =>
          rcases hafter with h | ⟨n', hn', hw⟩
          · simp at h
          · simp only [List.getElem?_cons_zero, Option.some.injEq] at hn'
            simp [boundaryOk, hn', hw]
      rw [if_pos]
      · rfl
      · simp only [Bool.and_eq_true, Bool.or_eq_true, decide_eq_true_eq]
        rcases hcond with ⟨rfl, rfl⟩ | ⟨rfl, rfl⟩ <;>
          simp [hcd, hdd, hb4]
    · rintro ⟨hbound, hsome⟩
      by_cases hcond : (((a = '1' && b = '9') || (a = '2' && b = '0')) && c.isDigit
          && d.isDigit && boundaryOk rest.head?) = true
      · simp only [Bool.and_eq_true, Bool.or_eq_true, decide_eq_true_eq] at hcond
        obtain ⟨⟨⟨hab, hcd⟩, hdd⟩, hb4⟩ := hcond
        refine ⟨⟨a, b, c, d, rfl, rfl, rfl, rfl, ?_, hcd, hdd⟩, hbound, ?_⟩
        · rcases hab with ⟨rfl, rfl⟩ | ⟨rfl, rfl⟩
          · exact Or.inl ⟨rfl, rfl⟩
          · exact Or.inr ⟨rfl, rfl⟩
        · cases rest with
          | nil => exact Or.inl rfl
          | cons n rest' =>
            refine Or.inr ⟨n, by simp, ?_⟩
            simpa [boundaryOk] using hb4
      · rw [if_neg hcond] at hsome
        simp at hsome

theorem yearTokenAt_succ_iff (prev : Option Char) (c : Char) (t : List Char) (i : Nat) :
    yearTokenAt prev (c :: t) (i + 1) ↔ yearTokenAt (some c) t i := by
  unfold yearTokenAt
  simp only [List.getElem?_cons_succ]
  constructor
  · rintro ⟨h1, h2, h3⟩
    refine ⟨h1, ?_, h3⟩
    cases i with
    | zero =>
      obtain ⟨p, hp, hw⟩ := h2
      simp only [List.getElem?_cons_zero, Option.some.injEq] at hp
      simp [boundaryOk, hp, hw]
    | succ j =>
      simpa [List.getElem?_cons_succ] using h2
  · rintro ⟨h1, h2, h3⟩
    refine ⟨h1, ?_, h3⟩
    cases i with
    | zero =>
      refine ⟨c, by simp, ?_⟩
      simpa [boundaryOk] using h2
    | succ j =>
      simpa [List.getElem?_cons_succ] using h2

theorem yearSearch_eq_none_iff : ∀ (cs : List Char) (prev : Option Char),
    yearSearch prev cs = none ↔ ∀ i, ¬ yearTokenAt prev cs i := by
  intro cs
  induction cs with
  | nil =>
    intro prev
    constructor
    · rintro _ i ⟨⟨a, _, _, _, ha, _⟩, _, _⟩
      simp at ha
    · intro _; rfl
  | cons c t ih =>
    intro prev
    rw [yearSearch]
    by_cases hb : boundaryOk prev = true
    · rw [if_pos hb]
      cases hy : yearAt (c :: t) with
      | some tok =>
        constructor
        · intro h; simp at h
        · intro hall
          exact absurd ((yearTokenAt_zero_iff prev (c :: t)).mpr ⟨hb, by simp [hy]⟩) (hall 0)
      | none =>
        rw [ih (some c)]
        constructor
        · intro hall i
          cases i with
          | zero =>
            intro hz
            have := (yearTokenAt_zero_iff prev (c :: t)).mp hz
            rw [hy] at this
            simp at this
          | succ j =>
            intro hz
            exact hall j ((yearTokenAt_succ_iff prev c t j).mp hz)
        · intro hall i hz
          exact hall (i + 1) ((yearTokenAt_succ_iff prev c t i).mpr hz)
    · rw [if_neg hb]
      rw [ih (some c)]
      constructor
      · intro hall i
        cases i with
        | zero =>
          intro hz
          exact hb ((yearTokenAt_zero_iff prev (c :: t)).mp hz).1
        | succ j =>
          intro hz
          exact hall j ((yearTokenAt_succ_iff prev c t j).mp hz)
      · intro hall i hz
        exact hall (i + 1) ((yearTokenAt_succ_iff prev c t i).mpr hz)

theorem yearAt_some_ne_nil : ∀ {cs tok : List Char}, yearAt cs = some tok → tok ≠ [] := by
  intro cs
  match cs with
  | [] => intro tok h; simp [yearAt] at h
  | [a] => intro tok h; simp [yearAt] at h
  | [a, b] => intro tok h; simp [yearAt] at h
  | [a, b, c] => intro tok h; simp [yearAt] at h
  | a :: b :: c :: d :: rest =>
    intro tok h
    unfold yearAt at h
    rcases ite_eq_iff.mp h with ⟨_, h2⟩ | ⟨_, h2⟩
    · obtain rfl : [a, b, c, d] = tok := by simpa using h2
      simp
    · simp at h2

theorem yearSearch_token_ne_nil : ∀ (prev : Option Char) (cs tok : List Char),
    yearSearch prev cs = some tok → tok ≠ [] := by
  intro prev cs
  induction cs generalizing prev with
  | nil => intro tok h; simp [yearSearch] at h
  | cons c rest ih =>
    intro tok h
    rw [yearSearch] at h
    by_cases hb : boundaryOk prev = true
    · rw [if_pos hb] at h
      cases hy : yearAt (c :: rest) with
      | none => rw [hy] at h; exact ih (some c) tok h
      | some t =>
        rw [hy] at h
        obtain rfl : t = tok := by simpa using h
        exact yearAt_some_ne_nil hy
    · rw [if_neg hb] at h
      exact ih (some c) tok h

theorem extractYear_empty_iff (s : String) :
    extractYear s = "" ↔ ∀ i, ¬ yearTokenAt none s.data i := by
  cases hy : yearSearch none s.data with
  | none =>
    have he : extractYear s = "" := by unfold extractYear; rw [hy]
    simpa [he] using (yearSearch_eq_none_iff s.data none).mp hy
  | some tok =>
    have he : extractYear s = String.mk tok := by unfold extractYear; rw [hy]
    constructor
    · intro h
      exfalso
      apply yearSearch_token_ne_nil none s.data tok hy
      rw [he] at h
      simpa using congrArg String.data h
    · intro hall
      exact absurd hy (by simp [(yearSearch_eq_none_iff s.data none).mpr hall])

/-! The claims. -/

/-- Claim C2: every Record in the Item Parser's output has at least one of
title, doi, journal non-empty — an item whose three fields are all empty is
discarded before entering the page's row table, regardless of its other
fields. -/
theorem c2_record_validity (page : Html) (src : String) :
    ∀ r ∈ parseOnePage page src, r.title ≠ "" ∨ r.doi ≠ "" ∨ r.journal ≠ "" := by
  intro r hr
  unfold parseOnePage at hr
  rw [List.mem_filterMap] at hr
  obtain ⟨it, _, heq⟩ := hr
  dsimp only at heq
  split at heq
  · simp at heq
  · rename_i hcond
    injection heq with heq
    subst heq
    simp only []
    tauto

/-- Witness for C2 on Scenario A's page: the parsed record is in the output
and satisfies the validity disjunction. -/
theorem c2_record_validity_witness :
    scenarioRec ∈ parseOnePage scenarioItem "page_1" ∧
      (scenarioRec.title ≠ "" ∨ scenarioRec.doi ≠ "" ∨ scenarioRec.journal ≠ "") :=
  ⟨by decide, c2_record_validity scenarioItem "page_1" scenarioRec (by decide)⟩

/-- Counterexample to claim C5: `c5Item`'s structurally-marked year element
(`a.ar-year`, text `n.d.`) yields no 1900-2099 token, the item's full
rendered text contains `2021`, yet the extractor returns the empty string —
the full-text fallback is not attempted when the marked element exists. -/
theorem c5_counter :
    (yearElemOf c5Item).isSome = true ∧ yearFromItem c5Item = "" ∧
      extractYear (nodeText " " c5Item) = "2021" := by decide

/-- Claim C5 (amended): the Year extractor searches the item's whole rendered
text only when no structurally-marked year element exists; when the marked
element exists its extraction result is returned as is, even if empty. In
either branch, `extractYear` returns the empty string exactly when no
1900-2099 token with word boundaries occurs in the text it was given. -/
theorem c5_year_rule :
    (∀ item y, yearElemOf item = some y →
        yearFromItem item = extractYear (nodeText " " y)) ∧
    (∀ item, yearElemOf item = none →
        yearFromItem item = extractYear (nodeText " " item)) ∧
    (∀ s : String, extractYear s = "" ↔ ∀ i, ¬ yearTokenAt none s.data i) := by
  refine ⟨?_, ?_, extractYear_empty_iff⟩
  · intro item y h
    unfold yearFromItem
    rw [h]
  · intro item h
    unfold yearFromItem
    rw [h]

/-- Witness for C5 (amended) on Scenario A's item. -/
theorem c5_year_rule_witness : yearFromItem scenarioItem = "2021" := by
  have h := c5_year_rule.1 scenarioItem
    (.elem "a" ["ar-year"] none (.text "2021" .nil) .nil) (by decide)
  rw [h]
  decide

/-- Claim C6: the DOI extractor searches case-insensitively for a `DOI:`
label followed by a non-whitespace token; whenever the captured token is a
placeholder (bare dash, em-dash, `n/a` or `na` case-insensitively) it
returns the empty string; in particular `DOI: -` yields an empty doi. -/
theorem c6_doi_rule :
    (∀ (text : String) (tok : List Char), doiSearch none text.data = some tok →
        tok ≠ [] ∧ ∀ c ∈ tok, pyWs c = false) ∧
    (∀ (text : String) (tok : List Char), doiSearch none text.data = some tok →
        isDoiPlaceholder (String.mk (trimWs tok)) = true → extractDoi text = "") ∧
    extractDoi "DOI: -" = "" ∧ extractDoi "DOI: —" = "" ∧ extractDoi "doi: N/A" = "" ∧
    extractDoi "DOI:na" = "" ∧ extractDoi "See DOI: 10.1000/XyZ for details" = "10.1000/XyZ" := by
  refine ⟨?_, ?_, by decide, by decide, by decide, by decide, by decide⟩
  · intro text tok h
    obtain ⟨hne, hall⟩ := doiSearch_token none text.data tok h
    refine ⟨hne, fun c hc => ?_⟩
    have := hall c hc
    simp only [doiTokChar, Bool.and_eq_true, Bool.not_eq_true'] at this
    exact this.1
  · intro text tok h hph
    unfold extractDoi
    rw [h]
    simp [hph]

/-- Witness for C6: the placeholder rule applied to a token found mid-text. -/
theorem c6_doi_rule_witness : extractDoi "see DOI: n/a here" = "" :=
  c6_doi_rule.2.1 "see DOI: n/a here" ['n', '/', 'a'] (by decide) (by decide)

/-- Claim C9: if the authors candidate left after stripping the Author-Order
prefix, cutting at the earliest year/DOI/Accred marker and trimming
separators contains neither a semicolon nor a comma, stage (a) of the
Authors extractor returns the empty string — the `Lastname, Firstname`
shape check requires a comma, so every comma-less, semicolon-less candidate
is discarded. -/
theorem c9_authors_comma (m : String)
    (h1 : strContainsChar (authorsCandidate m) ';' = false)
    (h2 : strContainsChar (authorsCandidate m) ',' = false) :
    extractAuthorsFromMeta m = "" := by
  unfold extractAuthorsFromMeta
  by_cases hz : authorsCandidate m = ""
  · rw [if_pos hz]
  · rw [if_neg hz]
    rw [if_pos (by simp [h1, h2])]
    have hs : ¬ shapeMatch (authorsCandidate m) = true := by
      intro hsm
      have hc := shapeMatch_comma hsm
      rw [h2] at hc
      simp at hc
    rw [if_neg hs]

/-- Witness for C9: a single author without comma is discarded. -/
theorem c9_authors_comma_witness :
    extractAuthorsFromMeta "Author Order: 1 of 2 John Smith 2021" = "" :=
  c9_authors_comma "Author Order: 1 of 2 John Smith 2021" (by decide) (by decide)

/-- Claim C10: when an item has a hyperlink whose target matches the
detail-page marker, the Title extractor returns the normalized visible text
of the first such link and never runs the fallback scan — so the length and
noise filters apply only to fallback candidates, and the title may come out
empty even though other qualifying links exist. -/
theorem c10_title_primary (item a : Html) (h : detailLinkOf item = some a) :
    titleFromItem item = cleanText (nodeText " " a) := by
  unfold titleFromItem
  rw [h]

/-- Witness for C10: `c10Item`'s detail link has empty text, so the title is
empty, although the fallback scan would have produced a qualifying text. -/
theorem c10_title_primary_witness :
    detailLinkOf c10Item = some c10Link ∧ titleFromItem c10Item = "" ∧
      titleFallback c10Item = "A Perfectly Good Title" := by
  refine ⟨by decide, ?_, by decide⟩
  rw [c10_title_primary c10Item c10Link (by decide)]
  decide

/-- Counterexample to claim C1: `c1X` and `c1Y` have distinct spec DedupKeys
(the tagged META tuples differ), yet the Deduplicator discards `c1Y`,
because the code encodes the key as a `|`-joined string and a `|` inside a
field makes the two encodings collide. -/
theorem c1_counter :
    dedupKeySpec c1X ≠ dedupKeySpec c1Y ∧ smartDedup [c1X, c1Y] = [c1X] := by decide

/-- Claim C1 (amended): keys are compared by their string encoding
`DOI|…` / `META|title|year|journal|authors` (with the year lowercased too);
on records that are clean, whose title and journal contain no `|`, and whose
year is empty or all digits, this coincides with the spec's tagged key, and
the Deduplicator keeps exactly the first record in fetch order per distinct
key, discards all later equal-key records, and preserves the relative order
of the kept records. -/
theorem c1_dedup (rs : List Record)
    (hclean : ∀ r ∈ rs, cleanFields r = r)
    (hbar : ∀ r ∈ rs, '|' ∉ r.title.data ∧ '|' ∉ r.journal.data)
    (hyear : ∀ r ∈ rs, r.year = "" ∨ ∀ c ∈ r.year.data, c.isDigit = true) :
    smartDedup rs = keepFirstAux dedupKeySpec [] rs ∧
    (smartDedup rs).Sublist rs ∧
    (smartDedup rs).Pairwise (fun a b => dedupKeySpec a ≠ dedupKeySpec b) ∧
    ∀ k : DedupKey,
      (smartDedup rs).find? (fun r => decide (dedupKeySpec r = k))
        = rs.find? (fun r => decide (dedupKeySpec r = k)) := by
  have hmap : rs.map cleanFields = rs := by
    calc rs.map cleanFields = rs.map id := List.map_congr_left hclean
      _ = rs := List.map_id rs
  have hmain : smartDedup rs = keepFirstAux dedupKeySpec [] rs := by
    unfold smartDedup
    rw [hmap]
    have hiff : ∀ a b : Record,
        (a ∈ ([] : List Record) ∨ a ∈ rs) → (b ∈ ([] : List Record) ∨ b ∈ rs) →
        (makeKey a = makeKey b ↔ dedupKeySpec a = dedupKeySpec b) := by
      rintro a b (ha | ha) (hb | hb)
      · simp at ha
      · simp at ha
      · simp at hb
      · exact makeKey_iff_spec a b (hbar a ha).1 (hbar a ha).2 (hyear a ha)
          (hbar b hb).1 (hbar b hb).2 (hyear b hb)
    simpa using keepFirstAux_congr makeKey dedupKeySpec [] rs hiff
  refine ⟨hmain, ?_, ?_, ?_⟩
  · rw [hmain]; exact keepFirstAux_sublist dedupKeySpec [] rs
  · rw [hmain]; exact keepFirstAux_pairwise dedupKeySpec [] rs
  · intro k
    rw [hmain]
    exact keepFirstAux_find? dedupKeySpec [] rs k (by simp)

/-- Witness for C1 (amended) on three clean separator-free records, the
second repeating the first's DOI up to case. -/
theorem c1_dedup_witness :
    smartDedup c1Demo = keepFirstAux dedupKeySpec [] c1Demo ∧
      (smartDedup c1Demo).Sublist c1Demo := by
  have h := c1_dedup c1Demo (by decide) (by decide) (by decide)
  exact ⟨h.1, h.2.1⟩

/-- Claim C3: the first time a fetched page's body repeats a previously
fetched page's body, the crawl stops with the duplicate-page outcome at that
page, and the repeated page contributes no rows: the accumulated parts and
fingerprints cover exactly pages 1 to j - 1. -/
theorem c3_duplicate_stop (cap j i0 : Nat) (html : Nat → String)
    (parse : String → List Record)
    (h1 : 1 ≤ i0) (h2 : i0 < j) (h3 : j ≤ cap) (hdup : html i0 = html j)
    (hdist : ∀ i k, 1 ≤ i → i < k → k ≤ j - 1 → html i ≠ html k)
    (hstreak : ∀ i, 1 ≤ i → i + 1 ≤ j - 1 →
      ¬(parse (html i) = [] ∧ parse (html (i + 1)) = [])) :
    crawlRun cap (fun p => some (html p)) parse
      = ⟨pageParts html parse (j - 1), pageSeen html (j - 1), some (.duplicate j)⟩ := by
  rw [crawl_reach cap _ html parse (j - 1) (by omega) (fun i _ _ => rfl) hdist hstreak]
  have hrem : cap - (j - 1) = (cap - j) + 1 := by omega
  have hpage : (j - 1) + 1 = j := by omega
  rw [hrem, hpage]
  have hmem : html j ∈ pageSeen html (j - 1) := by
    simp only [pageSeen, List.mem_map, List.mem_range]
    exact ⟨i0 - 1, by omega, by rw [show i0 - 1 + 1 = i0 by omega]; exact hdup⟩
  simp only [crawlLoop, if_pos hmem]

/-- Witness for C3: page 3 repeats page 1; the crawl stops at page 3 with
the duplicate outcome and two accumulated pages. -/
theorem c3_duplicate_stop_witness :
    crawlRun 4 (fun p => some (c3Html p)) wParseAll
      = ⟨pageParts c3Html wParseAll 2, pageSeen c3Html 2, some (.duplicate 3)⟩ := by
  apply c3_duplicate_stop 4 3 1 c3Html wParseAll (by omega) (by omega) (by omega) (by decide)
  · intro i k hi hik hk
    have hi1 : i = 1 := by omega
    have hk2 : k = 2 := by omega
    subst hi1; subst hk2; decide
  · intro i hi hi2
    have h : i = 1 := by omega
    subst h; decide

/-- Claim C4: the crawl stops with the empty-streak outcome exactly when two
consecutive fetched pages each parse to zero records — any such stop comes
from two consecutive empty pages (so a single empty page never stops the
crawl), and two consecutive empty pages after a clean prefix produce exactly
that stop (intervening non-empty pages having reset the counter). -/
theorem c4_empty_streak :
    (∀ (cap : Nat) (fetch : Nat → Option String) (parse : String → List Record) (q : Nat),
        (crawlRun cap fetch parse).stop = some (.emptyStreak q) →
          2 ≤ q ∧ ∃ h1 h2, fetch (q - 1) = some h1 ∧ parse h1 = [] ∧
            fetch q = some h2 ∧ parse h2 = []) ∧
    (∀ (cap j : Nat) (html : Nat → String) (parse : String → List Record),
        2 ≤ j → j ≤ cap →
        (∀ i k, 1 ≤ i → i < k → k ≤ j → html i ≠ html k) →
        (∀ i, 1 ≤ i → i + 1 ≤ j - 1 → ¬(parse (html i) = [] ∧ parse (html (i + 1)) = [])) →
        parse (html (j - 1)) = [] → parse (html j) = [] →
        crawlRun cap (fun p => some (html p)) parse
          = ⟨pageParts html parse j, pageSeen html j, some (.emptyStreak j)⟩) := by
  constructor
  · intro cap fetch parse q h
    exact crawl_emptyStreak_sound fetch parse cap 1 [] [] 0 (by omega) (by omega)
      (fun h1 => absurd h1 (by omega)) q h
  · intro cap j html parse hj hcap hdist hstreak hja hjb
    rw [crawl_reach cap _ html parse (j - 1) (by omega) (fun i _ _ => rfl)
      (fun i k a b c => hdist i k a b (by omega)) hstreak]
    have hrem : cap - (j - 1) = (cap - j) + 1 := by omega
    have hpage : (j - 1) + 1 = j := by omega
    rw [hrem, hpage]
    have hnotmem : html j ∉ pageSeen html (j - 1) := by
      simp only [pageSeen, List.mem_map, List.mem_range]
      rintro ⟨i, hi, heq⟩
      exact hdist (i + 1) j (by omega) (by omega) (le_refl j) heq
    have hstreak1 : streakAt html parse (j - 1) = 1 := by
      unfold streakAt
      rw [if_pos ⟨by omega, hja⟩]
    have hp : pageParts html parse j = pageParts html parse (j - 1) ++ [parse (html j)] := by
      conv_lhs => rw [← hpage]
      rw [pageParts_succ, hpage]
    have hsn : pageSeen html j = pageSeen html (j - 1) ++ [html j] := by
      conv_lhs => rw [← hpage]
      rw [pageSeen_succ, hpage]
    simp only [crawlLoop, if_neg hnotmem, hstreak1]
    rw [if_pos (by simp [hjb])]
    rw [if_pos (by omega)]
    rw [hp, hsn]

/-- Witness for C4: pages 2, 4 and 5 are empty; the single empty page 2 does
not stop the crawl (page 3 resets the counter) and the streak at pages 4-5
stops it at page 5. -/
theorem c4_empty_streak_witness :
    crawlRun 6 (fun p => some (c4Html p)) c4Parse
      = ⟨pageParts c4Html c4Parse 5, pageSeen c4Html 5, some (.emptyStreak 5)⟩ := by
  apply c4_empty_streak.2 6 5 c4Html c4Parse (by omega) (by omega)
  · intro i k hi hik hk
    have hk2 : 2 ≤ k := by omega
    interval_cases k <;> interval_cases i <;> decide
  · intro i hi hi1
    have hup : i ≤ 3 := by omega
    interval_cases i <;> decide
  · decide
  · decide

/-- Claim C7: the export uses semicolon as separator, its header row is
exactly `No;Judul Artikel;Tahun;Authors;Nama Jurnal;Sinta;DOI;SourceFile`,
there is one data row per surviving record of the deduplicated table, the
`No` column is the 1-based position assigned after deduplication, and any
field without a semicolon, quote or line break — commas included — passes
through verbatim. -/
theorem c7_export (rs : List Record) :
    exportFinal (smartDedup rs)
      = csvLine headerCols ++ "\n" ++
        joinAll ((List.enum (smartDedup rs)).map
          (fun p => csvLine (recordRow (p.1 + 1) p.2) ++ "\n")) ∧
    csvLine headerCols = "No;Judul Artikel;Tahun;Authors;Nama Jurnal;Sinta;DOI;SourceFile" ∧
    (∀ (n : Nat) (r : Record),
        csvLine (recordRow n r)
          = toString n ++ ";" ++ csvField r.title ++ ";" ++ csvField r.year ++ ";" ++
            csvField r.authors ++ ";" ++ csvField r.journal ++ ";" ++ csvField r.sinta ++
            ";" ++ csvField r.doi ++ ";" ++ csvField r.sourceFile) ∧
    (∀ s : String, s.data.any csvSpecial = false → csvField s = s) := by
  refine ⟨?_, by decide, ?_, ?_⟩
  · unfold exportFinal toCsvSemicolon finalRows
    simp only [List.map_cons, List.map_map, joinAll, String.append_assoc]
    rfl
  · intro n r
    simp only [recordRow, csvLine, List.map, joinSemi, csvField_natRepr, String.append_assoc]
  · intro s h
    simp [csvField, h]

/-- Witness for C7 (Scenario D): a field containing commas but no semicolon,
quote or line break is exported unescaped. -/
theorem c7_export_witness : csvField "Proc., Intl Conf." = "Proc., Intl Conf." :=
  (c7_export []).2.2.2 "Proc., Intl Conf." (by decide)

/-- Counterexample to claim C8: a run that ends by exhausting the page cap
(two pages fetched and parsed, no duplicate, no empty streak, no error)
reports no stop event at all — the loop simply ends, so no cap-reached
reason is stated, while the other three outcomes carry explicit reports. -/
theorem c8_cap_counter :
    (crawlRun 2 (fun p => some (c8Html p)) wParseAll).parts.length = 2 ∧
      (crawlRun 2 (fun p => some (c8Html p)) wParseAll).stop = none := by decide

/-- Claim C8 (amended): transport errors are reported with the failing page
(and only failing pages are so reported, with prior pages' rows retained),
while a run that reaches the page cap with no stop condition ends with no
explicit stop report. -/
theorem c8_stop_reports :
    (∀ (cap q : Nat) (fetch : Nat → Option String) (html : Nat → String)
        (parse : String → List Record),
        1 ≤ q → q ≤ cap → fetch q = none →
        (∀ i, 1 ≤ i → i ≤ q - 1 → fetch i = some (html i)) →
        (∀ i k, 1 ≤ i → i < k → k ≤ q - 1 → html i ≠ html k) →
        (∀ i, 1 ≤ i → i + 1 ≤ q - 1 → ¬(parse (html i) = [] ∧ parse (html (i + 1)) = [])) →
        crawlRun cap fetch parse
          = ⟨pageParts html parse (q - 1), pageSeen html (q - 1),
              some (.requestFailed q)⟩) ∧
    (∀ (cap : Nat) (fetch : Nat → Option String) (parse : String → List Record) (q : Nat),
        (crawlRun cap fetch parse).stop = some (.requestFailed q) → fetch q = none) ∧
    (∀ (cap : Nat) (html : Nat → String) (parse : String → List Record),
        (∀ i k, 1 ≤ i → i < k → k ≤ cap → html i ≠ html k) →
        (∀ i, 1 ≤ i → i + 1 ≤ cap → ¬(parse (html i) = [] ∧ parse (html (i + 1)) = [])) →
        crawlRun cap (fun p => some (html p)) parse
          = ⟨pageParts html parse cap, pageSeen html cap, none⟩) := by
  refine ⟨?_, ?_, ?_⟩
  · intro cap q fetch html parse hq hqc hfail hok hdist hstreak
    rw [crawl_reach cap fetch html parse (q - 1) (by omega) hok hdist hstreak]
    have hrem : cap - (q - 1) = (cap - q) + 1 := by omega
    have hpage : (q - 1) + 1 = q := by omega
    rw [hrem, hpage]
    simp only [crawlLoop, hfail]
  · intro cap fetch parse q h
    exact crawl_requestFailed_sound fetch parse cap 1 [] [] 0 q h
  · intro cap html parse hdist hstreak
    rw [crawl_reach cap _ html parse cap (le_refl cap) (fun i _ _ => rfl) hdist hstreak]
    rw [Nat.sub_self]
    rfl

/-- Witness for C8 (amended): a fetch failing on page 2 is reported as such,
with page 1's rows retained. -/
theorem c8_stop_reports_witness :
    crawlRun 4 c8Fetch wParseAll
      = ⟨pageParts c8Html wParseAll 1, pageSeen c8Html 1, some (.requestFailed 2)⟩ := by
  apply c8_stop_reports.1 4 2 c8Fetch c8Html wParseAll (by omega) (by omega) (by decide)
  · intro i hi hi1
    have h : i = 1 := by omega
    subst h; decide
  · intro i k hi hik hk
    omega
  · intro i hi hi1
    omega
